import Mathlib

/-!
Verification of `fccid_downloader.py` (rgooler/fccid_downloader).

Shallow embedding: Python strings are modelled as `List Char` (`Str`);
the HTML parser's view of a document is modelled as explicit structures
(tables of rows of cells, document-order anchor lists), matching what the
code obtains through BeautifulSoup traversal.  Network and filesystem are
external collaborators: fetch results and per-item download outcomes are
passed in as parameters, and the orchestrator's filesystem behaviour is
modelled as an explicit effect trace.
-/

namespace Fccid

/-- Python `str`, modelled as a list of characters. -/
abbrev Str := List Char

/-- `s.lower()` (ASCII). -/
def lowerStr (s : Str) : Str := s.map Char.toLower

/-- Python `needle in haystack` (substring containment). -/
def strContains (h n : Str) : Bool :=
  match h with
  | [] => n.isEmpty
  | _ :: t => n.isPrefixOf h || strContains t n

/-- Python `s.lower().endswith(suf)` for an already-lowercase `suf`. -/
def lowerEndsWith (s suf : Str) : Bool :=
  suf.isSuffixOf (lowerStr s)

/-- The double-quote character. -/
def dq : Char := Char.ofNat 34

/-- The backslash character. -/
def bsl : Char := Char.ofNat 92

/-- The forbidden filename characters of `re.sub(r'[<>:"/\\|?*]', '_', ...)`. -/
def forbiddenChars : List Char := ['<', '>', ':', dq, '/', bsl, '|', '?', '*']

/-- Whether `c` is one of the forbidden filename characters. -/
def isForbidden (c : Char) : Bool := forbiddenChars.contains c

/-- `re.sub(r'[<>:"/\\|?*]', '_', s)`: replace each forbidden character by `_`. -/
def sanitizeChars (s : Str) : Str :=
  s.map (fun c => if isForbidden c then '_' else c)

/-- The lowercase file suffix `".pdf"`. -/
def pdfSuffix : Str := ".pdf".data

/-- The submission keyword `"submit"`. -/
def submitKw : Str := "submit".data

/--
The filename sanitation step of `download_exhibit` (lines 181–183 of
`fccid_downloader.py`): replace forbidden characters with `_`, then append
`".pdf"` unless the name already ends in it case-insensitively.
-/
def sanitizeName (s : Str) : Str :=
  if lowerEndsWith (sanitizeChars s) pdfSuffix then sanitizeChars s
  else sanitizeChars s ++ pdfSuffix

lemma lowerStr_append (s t : Str) : lowerStr (s ++ t) = lowerStr s ++ lowerStr t := by
  unfold lowerStr; exact List.map_append _ s t

lemma lowerEndsWith_append_self (s : Str) : lowerEndsWith (s ++ pdfSuffix) pdfSuffix = true := by
  unfold lowerEndsWith
  rw [lowerStr_append]
  have h : lowerStr pdfSuffix = pdfSuffix := by decide
  rw [h, List.isSuffixOf_iff_suffix]
  exact List.suffix_append _ _

lemma isForbidden_underscore : isForbidden '_' = false := by decide

lemma sanitizeChars_no_forbidden (s : Str) :
    (sanitizeChars s).all (fun c => !(isForbidden c)) = true := by
  unfold sanitizeChars
  rw [List.all_map]
  apply List.all_eq_true.mpr
  intro c _
  by_cases h : isForbidden c = true
  · simp [Function.comp, h, isForbidden_underscore]
  · simp only [Bool.not_eq_true] at h
    simp [Function.comp, h]

lemma sanitizeName_ends (s : Str) : lowerEndsWith (sanitizeName s) pdfSuffix = true := by
  unfold sanitizeName
  cases h : lowerEndsWith (sanitizeChars s) pdfSuffix
  · simp only [Bool.false_eq_true, if_false]
    exact lowerEndsWith_append_self _
  · simp [h]

lemma sanitizeName_no_forbidden (s : Str) :
    (sanitizeName s).all (fun c => !(isForbidden c)) = true := by
  unfold sanitizeName
  cases h : lowerEndsWith (sanitizeChars s) pdfSuffix
  · simp only [Bool.false_eq_true, if_false]
    rw [List.all_append, Bool.and_eq_true]
    exact ⟨sanitizeChars_no_forbidden s, by decide⟩
  · simp only [if_pos rfl]
    exact sanitizeChars_no_forbidden s

lemma sanitizeChars_of_clean (s : Str)
    (h : s.all (fun c => !(isForbidden c)) = true) : sanitizeChars s = s := by
  unfold sanitizeChars
  conv_rhs => rw [← List.map_id s]
  apply List.map_congr_left
  intro c hc
  have h2 := List.all_eq_true.mp h c hc
  simp only [Bool.not_eq_true'] at h2
  simp [h2]

lemma sanitizeName_of_clean_ends (t : Str)
    (h1 : t.all (fun c => !(isForbidden c)) = true)
    (h2 : lowerEndsWith t pdfSuffix = true) : sanitizeName t = t := by
  unfold sanitizeName
  rw [sanitizeChars_of_clean t h1, if_pos h2]

lemma sanitizeName_idem (s : Str) : sanitizeName (sanitizeName s) = sanitizeName s :=
  sanitizeName_of_clean_ends (sanitizeName s) (sanitizeName_no_forbidden s) (sanitizeName_ends s)

/-- C3: the sanitizer is idempotent, removes all forbidden characters, and its
output always ends (case-insensitively) in `".pdf"`. -/
theorem c3_sanitizer_properties (s : Str) :
    sanitizeName (sanitizeName s) = sanitizeName s
    ∧ (sanitizeName s).all (fun c => !(isForbidden c)) = true
    ∧ lowerEndsWith (sanitizeName s) pdfSuffix = true :=
  ⟨sanitizeName_idem s, sanitizeName_no_forbidden s, sanitizeName_ends s⟩

/-! ## URL handling (external collaborators `urllib.parse` / `os.path`) -/

/-- Checks that `s` starts with a URL scheme followed by a colon:
an alphabetic character, then scheme characters up to a `:`.
Models how `urllib.parse` recognises an absolute (scheme-carrying) URL. -/
def hasSchemeTail (s : Str) : Bool :=
  match s with
  | [] => false
  | c :: rest => if c = ':' then true
                 else (c.isAlpha || c.isDigit || c = '+' || c = '-' || c = '.') && hasSchemeTail rest

/-- Whether the URL string carries a scheme (`letter schemechars* ':'`). -/
def hasScheme (s : Str) : Bool :=
  match s with
  | [] => false
  | c :: rest => c.isAlpha && hasSchemeTail rest

/-- The fixed base URL `self.base_url = "https://fccid.io"`. -/
def baseUrl : Str := "https://fccid.io".data

/-- Models `urllib.parse.urljoin(self.base_url, url)` for the fixed absolute
base `"https://fccid.io"`: an empty reference yields the base, a reference
with a scheme is kept, a scheme-relative reference gets the base's scheme,
a rooted path is attached to the base authority, and any other reference is
resolved against the base's (empty) path. -/
def urljoin (url : Str) : Str :=
  if url.isEmpty then baseUrl
  else if hasScheme url then url
  else if ['/', '/'].isPrefixOf url then "https:".data ++ url
  else if url.headD ' ' = '/' then baseUrl ++ url
  else baseUrl ++ ('/' :: url)

/-- Drops everything from the first occurrence of `c` on (`c` included
keeps nothing): used to strip query and fragment parts. -/
def takeUntilChar (c : Char) (s : Str) : Str := s.takeWhile (fun d => d ≠ c)

/-- Drops a leading `scheme:` part, when present. -/
def dropSchemePart (s : Str) : Str :=
  if hasScheme s then (s.dropWhile (fun d => d ≠ ':')).drop 1 else s

/-- Models `urllib.parse.urlparse(u).path`: remove the fragment (from the
first `#`), then the query (from the first `?`), then the scheme and the
`//`-introduced authority when present; what remains is the path. -/
def urlPath (u : Str) : Str :=
  let u1 := takeUntilChar '#' u
  let u2 := takeUntilChar '?' u1
  let u3 := dropSchemePart u2
  if ['/', '/'].isPrefixOf u3 then (u3.drop 2).dropWhile (fun d => d ≠ '/')
  else u3

/-- Models `os.path.basename`: the part of the path after the last `/`. -/
def basename (p : Str) : Str :=
  ((p.reverse).takeWhile (fun d => d ≠ '/')).reverse

/-! ## Date pattern -/

/-- Whether the list starts with the pattern `\d{4}-\d{2}-\d{2}`. -/
def datePatternAt (s : Str) : Bool :=
  match s with
  | a :: b :: c :: d :: e :: f :: g :: h :: i :: j :: _ =>
      a.isDigit && b.isDigit && c.isDigit && d.isDigit && e = '-' &&
      f.isDigit && g.isDigit && h = '-' && i.isDigit && j.isDigit
  | _ => false

/-- Models `re.search(r'(\d{4}-\d{2}-\d{2})', s)`: the first (leftmost)
ten-character substring matching the date pattern, if any. -/
def findDateSub (s : Str) : Option Str :=
  match s with
  | [] => none
  | _ :: t => if datePatternAt s then some (s.take 10) else findDateSub t

/-! ## HTML document model (BeautifulSoup view)

A `Cell` records, in document order, the anchors inside the cell that carry
an `href` attribute (`cell.find('a', href=True)` returns the head of that
list) and the cell's normalized text (`get_text(strip=True)`).  An
`HtmlDoc` records the tables (lists of rows of cells) and, separately, the
document-order list of all `href`-carrying anchors
(`soup.find_all('a', href=True)`). -/

/-- An `<a href=...>` element: its `href` value and its stripped text. -/
structure Anchor where
  href : Str
  text : Str
deriving DecidableEq

/-- A table cell: its `href`-carrying anchors in order, and its text. -/
structure Cell where
  anchors : List Anchor
  text : Str
deriving DecidableEq

/-- The default cell (never observed through a valid index). -/
def cellDefault : Cell := ⟨[], []⟩

/-- A table row, as `row.find_all(['td', 'th'])`. -/
abbrev Row := List Cell

/-- A table, as its list of `tr` rows. -/
abbrev Table := List Row

/-- A parsed HTML document. -/
structure HtmlDoc where
  tables : List Table
  anchors : List Anchor
deriving DecidableEq

/-- The result record appended to `exhibit_links`. -/
structure LinkDescriptor where
  url : Str
  filename : Str
  text : Str
  date : Option Str
deriving DecidableEq

/-! ## `find_exhibit_links` -/

/-- The lowered header texts of a header row (line 60). -/
def headersOf (hrow : Row) : List Str :=
  hrow.map (fun c => lowerStr c.text)

/-- Lines 70–75: scan the row's cells left to right; in each cell take the
first `href`-carrying anchor, and select it if its `href` is non-empty. -/
def rowLink (cells : Row) : Option Anchor :=
  cells.findSome? (fun c =>
    match c.anchors.head? with
    | some a => if a.href.isEmpty then none else some a
    | none => none)

/-- Lines 79–88: find the first header index containing `"submit"` that is
also a valid index into the row's cells; take that cell's text, replaced by
the first `YYYY-MM-DD` match inside it when one exists. -/
def rowDateAux (headers : List Str) (cells : Row) (i : Nat) : Option Str :=
  match headers with
  | [] => none
  | h :: hs =>
      if strContains h submitKw && decide (i < cells.length) then
        let t := (cells.getD i cellDefault).text
        some ((findDateSub t).getD t)
      else rowDateAux hs cells (i + 1)

/-- The date field of a row's descriptor. -/
def rowDate (headers : List Str) (cells : Row) : Option Str :=
  rowDateAux headers cells 0

/-- Lines 64–103: one iteration of the row loop; `none` when the row is
skipped (fewer than two cells, or no cell with a non-empty-href anchor). -/
def rowDescriptor (headers : List Str) (cells : Row) : Option LinkDescriptor :=
  if cells.length < 2 then none
  else
    match rowLink cells with
    | none => none
    | some a =>
        let date := rowDate headers cells
        let fn0 := basename (urlPath a.href)
        let fn := if fn0.isEmpty then sanitizeChars a.text else fn0
        some ⟨urljoin a.href, fn, a.text, date⟩

/-- Lines 53–103: the descriptors contributed by one table; empty when the
table has no rows or its first row has no header containing `"submit"`. -/
def tableDescriptors (t : Table) : List LinkDescriptor :=
  match t with
  | [] => []
  | hrow :: rest =>
      let headers := headersOf hrow
      if headers.any (fun h => strContains h submitKw) then
        rest.filterMap (rowDescriptor headers)
      else []

/-- Lines 105–116: the fallback scan over all anchors of the document. -/
def fallbackLinks (doc : HtmlDoc) : List LinkDescriptor :=
  doc.anchors.filterMap (fun a =>
    if lowerEndsWith a.href pdfSuffix then
      some ⟨urljoin a.href, basename (urlPath a.href), a.text, none⟩
    else none)

/-- `find_exhibit_links` (lines 46–118): every table contributes its
descriptors; when no table contributed anything, the fallback scan runs. -/
def find_exhibit_links (doc : HtmlDoc) : List LinkDescriptor :=
  let fromTables := doc.tables.flatMap tableDescriptors
  if fromTables.isEmpty then fallbackLinks doc else fromTables

/-! ## `get_pdf_download_url` -/

/-- The keyword `"download"`. -/
def downloadKw : Str := "download".data

/-- The keyword `"pdf"`. -/
def pdfKw : Str := "pdf".data

/-- The attribute value `"button"`. -/
def buttonTy : Str := "button".data

/-- A `<button>`/`<input>` element: its `type` attribute (when present) and
its `onclick` attribute (`button.get('onclick', '')` gives `""` when absent). -/
structure ButtonEl where
  typeAttr : Option Str
  onclick : Str
deriving DecidableEq

/-- The parsed view of an exhibit page: document-order `href`-carrying
anchors and document-order `button`/`input` elements. -/
structure ExhibitPage where
  anchors : List Anchor
  buttons : List ButtonEl
deriving DecidableEq

/-- Whether `c` is a single or double quote (the `["\']` character class). -/
def isQuoteChar (c : Char) : Bool := c = dq || c = Char.ofNat 39

/-- Models `re.search(r'["\']([^"\']*\.pdf[^"\']*)["\']', s)`: scan left to
right for a quote character followed by a quote-free stretch containing
`".pdf"` and closed by another quote; the captured group is that stretch. -/
def quotedPdfSub (s : Str) : Option Str :=
  match s with
  | [] => none
  | c :: rest =>
      if isQuoteChar c then
        let seg := rest.takeWhile (fun d => !(isQuoteChar d))
        if decide (seg.length < rest.length) && strContains seg pdfSuffix then some seg
        else quotedPdfSub rest
      else quotedPdfSub rest

/-- Lines 131–140: anchors qualifying as download candidates — `href` ends
in `.pdf` case-insensitively, or the lowered text contains `"download"` or
`"pdf"`; each contributes its resolved URL. -/
def anchorCandidates (p : ExhibitPage) : List Str :=
  p.anchors.filterMap (fun a =>
    if lowerEndsWith a.href pdfSuffix
       || strContains (lowerStr a.text) downloadKw
       || strContains (lowerStr a.text) pdfKw then
      some (urljoin a.href)
    else none)

/-- Lines 143–150: `button`/`input` elements with `type="button"` whose
`onclick` contains `"download"` or `".pdf"` case-insensitively contribute
the resolved first quoted `.pdf`-containing substring, when one exists. -/
def buttonCandidates (p : ExhibitPage) : List Str :=
  p.buttons.filterMap (fun b =>
    if b.typeAttr == some buttonTy then
      if strContains (lowerStr b.onclick) downloadKw
         || strContains (lowerStr b.onclick) pdfSuffix then
        (quotedPdfSub b.onclick).map urljoin
      else none
    else none)

/-- Lines 153–155: the returning loop over the collected candidates. -/
def firstPdfUrl (ls : List Str) : Option Str :=
  match ls with
  | [] => none
  | u :: rest => if lowerEndsWith u pdfSuffix then some u else firstPdfUrl rest

/-- `get_pdf_download_url` (lines 120–157) on a successfully fetched and
parsed exhibit page: collect anchor candidates, then button candidates, and
return the first collected URL ending case-insensitively in `.pdf`. -/
def get_pdf_download_url (p : ExhibitPage) : Option Str :=
  firstPdfUrl (anchorCandidates p ++ buttonCandidates p)

/-- Lines 195–196: the condition under which `download_exhibit` prints the
"may not be a PDF" warning, given the response's content type and the
resolved URL. -/
def warnCondition (contentType url : Str) : Bool :=
  !(strContains (lowerStr contentType) pdfKw) && !(lowerEndsWith url pdfSuffix)

/-! ## Orchestrator (`download_all_exhibits` / `main`)

The network and filesystem are external: the main page fetch result is a
`Option HtmlDoc` (None models `get_fcc_page` returning None), and the
outcome of `download_exhibit` for the i-th descriptor is given by an oracle
`ok : Nat → Bool`. -/

/-- A filesystem-visible effect of the orchestrator. -/
inductive Effect where
  | mkdirE (dir : Str)
  | downloadE (idx : Nat) (success : Bool)
deriving DecidableEq

/-- `download_all_exhibits` (lines 221–257): `False` when the page fetch
failed or no links were found; otherwise whether at least one of the
per-descriptor downloads succeeded. -/
def download_all_exhibits (page : Option HtmlDoc) (ok : Nat → Bool) : Bool :=
  match page with
  | none => false
  | some doc =>
      let links := find_exhibit_links doc
      if links.isEmpty then false
      else decide (0 < (List.range links.length).countP ok)

/-- The filesystem effect trace of `download_all_exhibits`: nothing on the
two fatal paths; otherwise the directory creation (line 239, named after
the identifier) followed by one download per descriptor. -/
def runTrace (fccId : Str) (page : Option HtmlDoc) (ok : Nat → Bool) : List Effect :=
  match page with
  | none => []
  | some doc =>
      let links := find_exhibit_links doc
      if links.isEmpty then []
      else Effect.mkdirE fccId :: (List.range links.length).map (fun i => Effect.downloadE i (ok i))

/-- The number of items downloaded successfully in a run. -/
def numSucceeded (page : Option HtmlDoc) (ok : Nat → Bool) : Nat :=
  match page with
  | none => 0
  | some doc => (List.range (find_exhibit_links doc).length).countP ok

/-- `main` (lines 260–276) after argument parsing: the process exit code. -/
def mainExitCode (page : Option HtmlDoc) (ok : Nat → Bool) : Nat :=
  if download_all_exhibits page ok then 0 else 1

/-! ## Generic list helpers -/

lemma filterMap_ite_eq_filter_map {α β : Type} (p : α → Bool) (g : α → β) :
    ∀ l : List α,
      l.filterMap (fun a => if p a then some (g a) else none) = (l.filter p).map g := by
  intro l
  induction l with
  | nil => rfl
  | cons a t ih =>
      cases h : p a
      · simp [List.filterMap_cons, List.filter_cons, h, ih]
      · simp [List.filterMap_cons, List.filter_cons, h, ih]

lemma filterMap_eq_map_filter {α β : Type} (f : α → Option β) (d : β) :
    ∀ l : List α,
      l.filterMap f
        = (l.filter (fun a => (f a).isSome)).map (fun a => (f a).getD d) := by
  intro l
  induction l with
  | nil => rfl
  | cons a t ih =>
      cases h : f a
      · simp [List.filterMap_cons, List.filter_cons, h, ih]
      · simp [List.filterMap_cons, List.filter_cons, h, ih]

/-! ## Resolver claims (C2, C10) -/

lemma firstPdfUrl_eq_find (l : List Str) :
    firstPdfUrl l = l.find? (fun u => lowerEndsWith u pdfSuffix) := by
  induction l with
  | nil => rfl
  | cons u t ih =>
      cases h : lowerEndsWith u pdfSuffix
      · simp [firstPdfUrl, List.find?_cons, h, ih]
      · simp [firstPdfUrl, List.find?_cons, h]

lemma urljoin_preserves_pdf (u : Str) (h : lowerEndsWith u pdfSuffix = true) :
    lowerEndsWith (urljoin u) pdfSuffix = true := by
  have hne : u ≠ [] := by
    intro he
    rw [he] at h
    exact absurd h (by decide)
  have key : ∀ x : Str, lowerEndsWith (x ++ u) pdfSuffix = true := by
    intro x
    unfold lowerEndsWith at h ⊢
    rw [List.isSuffixOf_iff_suffix] at h ⊢
    rw [lowerStr_append]
    exact h.trans (List.suffix_append _ _)
  unfold urljoin
  split_ifs with h1 h2 h3 h4
  · exact absurd (List.isEmpty_iff.mp h1) hne
  · exact h
  · exact key _
  · exact key _
  · have : baseUrl ++ ('/' :: u) = (baseUrl ++ ['/']) ++ u := by simp
    rw [this]
    exact key _

/-- C2: the resolver returns the first candidate, anchors (in document
order) before buttons, whose resolved URL ends case-insensitively in
`.pdf`; when an anchor candidate qualifies, later button candidates cannot
win; and an anchor reference ending in the suffix still ends in the suffix
after resolution. -/
theorem c2_resolver_first_candidate (p : ExhibitPage) :
    get_pdf_download_url p
        = (anchorCandidates p ++ buttonCandidates p).find? (fun u => lowerEndsWith u pdfSuffix)
    ∧ (∀ u, (anchorCandidates p).find? (fun u => lowerEndsWith u pdfSuffix) = some u →
        get_pdf_download_url p = some u)
    ∧ ∀ a : Anchor, lowerEndsWith a.href pdfSuffix = true →
        lowerEndsWith (urljoin a.href) pdfSuffix = true := by
  refine ⟨?_, ?_, fun a ha => urljoin_preserves_pdf a.href ha⟩
  · unfold get_pdf_download_url
    exact firstPdfUrl_eq_find _
  · intro u hu
    unfold get_pdf_download_url
    rw [firstPdfUrl_eq_find, List.find?_append, hu]
    rfl

lemma firstPdfUrl_ends (l : List Str) (u : Str) (h : firstPdfUrl l = some u) :
    lowerEndsWith u pdfSuffix = true := by
  rw [firstPdfUrl_eq_find] at h
  exact @List.find?_some Str (fun v => lowerEndsWith v pdfSuffix) u l h

/-- C10: every URL returned by the resolver ends case-insensitively in
`.pdf`, so the content-type warning condition of `download_exhibit` is
false for it whatever the content type is. -/
theorem c10_warning_unreachable (p : ExhibitPage) (u : Str)
    (h : get_pdf_download_url p = some u) :
    lowerEndsWith u pdfSuffix = true ∧ ∀ contentType, warnCondition contentType u = false := by
  have hu := firstPdfUrl_ends _ _ h
  refine ⟨hu, fun contentType => ?_⟩
  unfold warnCondition
  rw [hu]
  simp

/-! ## Orchestrator claims (C5, C6) -/

/-- C5: the exit code is zero exactly when at least one item succeeded; in
particular it is non-zero when the main page fetch fails and when no links
are found. -/
theorem c5_exit_code (page : Option HtmlDoc) (ok : Nat → Bool) :
    (mainExitCode page ok = 0 ↔ 0 < numSucceeded page ok)
    ∧ mainExitCode none ok = 1
    ∧ ∀ doc : HtmlDoc, find_exhibit_links doc = [] → mainExitCode (some doc) ok = 1 := by
  refine ⟨?_, rfl, ?_⟩
  · unfold mainExitCode download_all_exhibits numSucceeded
    cases page with
    | none => simp
    | some doc =>
        cases hemp : (find_exhibit_links doc).isEmpty
        · simp only [hemp, Bool.false_eq_true, if_false]
          cases hc : decide (0 < (List.range (find_exhibit_links doc).length).countP ok)
          · simp only [hc, Bool.false_eq_true, if_false]
            constructor
            · intro h; exact absurd h (by decide)
            · intro h; exact absurd (decide_eq_true h) (by rw [hc]; decide)
          · simp only [hc, if_pos rfl]
            exact ⟨fun _ => of_decide_eq_true hc, fun _ => rfl⟩
        · have hnil := List.isEmpty_iff.mp hemp
          simp [hemp, hnil]
  · intro doc hnil
    unfold mainExitCode download_all_exhibits
    simp [hnil]

/-- C6: the output directory (named after the identifier) is created only
when extraction yielded at least one descriptor, before any download, and on
the two fatal paths (failed page fetch, zero links) no directory is created. -/
theorem c6_mkdir_gating (fccId : Str) (page : Option HtmlDoc) (ok : Nat → Bool) :
    ((page = none ∨ ∃ doc, page = some doc ∧ find_exhibit_links doc = []) →
        ∀ d, Effect.mkdirE d ∉ runTrace fccId page ok)
    ∧ ∀ doc : HtmlDoc, page = some doc → find_exhibit_links doc ≠ [] →
        ∃ rest, runTrace fccId page ok = Effect.mkdirE fccId :: rest
          ∧ ∀ d, Effect.mkdirE d ∉ rest := by
  constructor
  · rintro (rfl | ⟨doc, rfl, hnil⟩) d
    · simp [runTrace]
    · simp [runTrace, hnil]
  · rintro doc rfl hne
    refine ⟨(List.range (find_exhibit_links doc).length).map
        (fun i => Effect.downloadE i (ok i)), ?_, ?_⟩
    · show (if (find_exhibit_links doc).isEmpty = true then ([] : List Effect)
          else Effect.mkdirE fccId :: (List.range (find_exhibit_links doc).length).map
            (fun i => Effect.downloadE i (ok i))) = _
      rw [if_neg (by simpa [List.isEmpty_iff] using hne)]
    · intro d hd
      rcases List.mem_map.mp hd with ⟨i, _, heq⟩
      exact Effect.noConfusion heq

/-! ## Extractor claims (C1, C7, C8) -/

/-- A row yields a descriptor iff it has at least two cells and some cell
whose first `href`-carrying anchor has a non-empty reference. -/
def rowQualifies (cs : Row) : Bool :=
  decide (2 ≤ cs.length) && (rowLink cs).isSome

/-- The default descriptor (never observed through a qualifying row). -/
def descDefault : LinkDescriptor := ⟨[], [], [], none⟩

/-- The descriptor of a qualifying row. -/
def rowDescOf (hs : List Str) (cs : Row) : LinkDescriptor :=
  (rowDescriptor hs cs).getD descDefault

/-- Formalisation of the claim's wording, for comparison with the code:
the descriptors of only the first table (in document order) whose header
row has a cell containing the submission keyword. -/
def firstMatchingTableLinks (doc : HtmlDoc) : List LinkDescriptor :=
  match doc.tables.find? (fun t =>
      match t with
      | [] => false
      | hrow :: _ => (headersOf hrow).any (fun s => strContains s submitKw)) with
  | some t => tableDescriptors t
  | none => []

lemma rowDescriptor_isSome (hs : List Str) (cs : Row) :
    (rowDescriptor hs cs).isSome = rowQualifies cs := by
  unfold rowDescriptor rowQualifies
  split_ifs with h
  · have h2 : decide (2 ≤ cs.length) = false := by
      simp only [decide_eq_false_iff_not]
      omega
    simp [h2]
  · have h2 : decide (2 ≤ cs.length) = true := by
      simp only [decide_eq_true_eq]
      omega
    cases hl : rowLink cs
    · simp [hl, h2]
    · simp [hl, h2]

/-- C1 amended: when any table contributed, the extractor's output is the
concatenation over ALL matching tables in document order (not only the
first), and each matching table contributes exactly one descriptor per
subsequent row that has at least two cells and a cell whose first anchor
carries a non-empty reference, in row order. -/
theorem c1_one_descriptor_per_row (doc : HtmlDoc)
    (h : doc.tables.flatMap tableDescriptors ≠ []) :
    find_exhibit_links doc = doc.tables.flatMap tableDescriptors
    ∧ ∀ hrow rest, (hrow :: rest) ∈ doc.tables →
        (headersOf hrow).any (fun s => strContains s submitKw) = true →
        tableDescriptors (hrow :: rest)
          = (rest.filter rowQualifies).map (rowDescOf (headersOf hrow)) := by
  constructor
  · show (if (doc.tables.flatMap tableDescriptors).isEmpty = true
        then fallbackLinks doc else doc.tables.flatMap tableDescriptors) = _
    rw [if_neg (by simpa [List.isEmpty_iff] using h)]
  · intro hrow rest _ hmatch
    show (if (headersOf hrow).any (fun s => strContains s submitKw) = true
        then rest.filterMap (rowDescriptor (headersOf hrow)) else []) = _
    rw [if_pos hmatch, filterMap_eq_map_filter (rowDescriptor (headersOf hrow)) descDefault]
    have hf : rest.filter (fun cs => (rowDescriptor (headersOf hrow) cs).isSome)
        = rest.filter rowQualifies :=
      List.filter_congr (fun cs _ => rowDescriptor_isSome (headersOf hrow) cs)
    rw [hf]
    rfl

/-- A header row whose second cell's text contains the submission keyword. -/
def hdrSubmit : Row := [⟨[], "Exhibit".data⟩, ⟨[], "Submitted available".data⟩]

/-- A data cell holding the anchor to `/a.pdf`. -/
def cellLinkA : Cell := ⟨[⟨"/a.pdf".data, "A".data⟩], "A".data⟩

/-- A data cell holding the anchor to `/b.pdf`. -/
def cellLinkB : Cell := ⟨[⟨"/b.pdf".data, "B".data⟩], "B".data⟩

/-- A data cell holding a date text. -/
def cellDate : Cell := ⟨[], "2020-01-02".data⟩

/-- A first matching table with one qualifying row. -/
def tableOne : Table := [hdrSubmit, [cellLinkA, cellDate]]

/-- A second matching table with one qualifying row. -/
def tableTwo : Table := [hdrSubmit, [cellLinkB, cellDate]]

/-- A document with two matching tables. -/
def docTwoTables : HtmlDoc := ⟨[tableOne, tableTwo], []⟩

/-- C1 counterexample: on a document with two matching tables the code
emits the rows of both tables, not only those of the first one. -/
theorem c1_counterexample :
    find_exhibit_links docTwoTables ≠ firstMatchingTableLinks docTwoTables
    ∧ (find_exhibit_links docTwoTables).length = 2
    ∧ (firstMatchingTableLinks docTwoTables).length = 1 := by decide

/-- C1 witness: the amended theorem applied to the two-table document. -/
theorem c1_one_descriptor_per_row_witness :
    find_exhibit_links docTwoTables = docTwoTables.tables.flatMap tableDescriptors
    ∧ tableDescriptors tableOne
        = ([[cellLinkA, cellDate]].filter rowQualifies).map (rowDescOf (headersOf hdrSubmit)) :=
  ⟨(c1_one_descriptor_per_row docTwoTables (by decide)).1,
   (c1_one_descriptor_per_row docTwoTables (by decide)).2 hdrSubmit [[cellLinkA, cellDate]]
     (by decide) (by decide)⟩

/-- C7: when no table contributed, the fallback emits exactly one
descriptor per anchor whose reference ends case-insensitively in `.pdf`,
in document order, all with absent date. -/
theorem c7_fallback_anchors (doc : HtmlDoc)
    (h1 : doc.tables.flatMap tableDescriptors = [])
    (h2 : doc.anchors.any (fun a => lowerEndsWith a.href pdfSuffix) = true) :
    find_exhibit_links doc
      = (doc.anchors.filter (fun a => lowerEndsWith a.href pdfSuffix)).map
          (fun a => ⟨urljoin a.href, basename (urlPath a.href), a.text, none⟩)
    ∧ find_exhibit_links doc ≠ []
    ∧ ∀ d ∈ find_exhibit_links doc, d.date = none := by
  have hmain : find_exhibit_links doc
      = (doc.anchors.filter (fun a => lowerEndsWith a.href pdfSuffix)).map
          (fun a => ⟨urljoin a.href, basename (urlPath a.href), a.text, none⟩) := by
    show (if (doc.tables.flatMap tableDescriptors).isEmpty = true
        then fallbackLinks doc else doc.tables.flatMap tableDescriptors) = _
    rw [if_pos (by simpa [List.isEmpty_iff] using h1)]
    exact filterMap_ite_eq_filter_map _ _ doc.anchors
  refine ⟨hmain, ?_, ?_⟩
  · rcases List.any_eq_true.mp h2 with ⟨a, ha, hp⟩
    rw [hmain]
    intro hnil
    rcases List.map_eq_nil_iff.mp hnil with hfil
    exact absurd (List.mem_filter.mpr ⟨ha, hp⟩) (by rw [hfil]; exact List.not_mem_nil a)
  · intro d hd
    rw [hmain] at hd
    rcases List.mem_map.mp hd with ⟨a, _, rfl⟩
    rfl

/-- A document with no tables and two anchors, one of them a PDF. -/
def docFallback : HtmlDoc :=
  ⟨[], [⟨"/c.txt".data, "C".data⟩, ⟨"/files/x.PDF".data, "X".data⟩]⟩

/-- C7 witness: the fallback theorem applied to a concrete document. -/
theorem c7_fallback_anchors_witness :
    find_exhibit_links docFallback
      = (docFallback.anchors.filter (fun a => lowerEndsWith a.href pdfSuffix)).map
          (fun a => ⟨urljoin a.href, basename (urlPath a.href), a.text, none⟩)
    ∧ find_exhibit_links docFallback ≠ []
    ∧ ∀ d ∈ find_exhibit_links docFallback, d.date = none :=
  c7_fallback_anchors docFallback (by decide) (by decide)

/-! ### C8: absolute URLs, but no generated-name fallback -/

lemma hasSchemeTail_of_colon (pre : Str)
    (h : pre.all (fun c => c.isAlpha || c.isDigit || c = '+' || c = '-' || c = '.') = true) :
    ∀ t : Str, hasSchemeTail (pre ++ ':' :: t) = true := by
  induction pre with
  | nil =>
      intro t
      show hasSchemeTail (':' :: t) = true
      unfold hasSchemeTail
      rw [if_pos rfl]
  | cons c cs ih =>
      intro t
      rw [List.all_cons, Bool.and_eq_true] at h
      show hasSchemeTail (c :: (cs ++ ':' :: t)) = true
      unfold hasSchemeTail
      by_cases hc : c = ':'
      · rw [if_pos hc]
      · rw [if_neg hc, h.1, ih h.2 t]
        rfl

lemma hasScheme_https (t : Str) :
    hasScheme ('h' :: (['t', 't', 'p', 's'] ++ ':' :: t)) = true := by
  show ('h'.isAlpha && hasSchemeTail (['t', 't', 'p', 's'] ++ ':' :: t)) = true
  rw [hasSchemeTail_of_colon ['t', 't', 'p', 's'] (by decide) t]
  decide

lemma hasScheme_urljoin (u : Str) : hasScheme (urljoin u) = true := by
  unfold urljoin
  split_ifs with h1 h2 h3 h4
  · decide
  · exact h2
  · exact hasScheme_https u
  · exact hasScheme_https ("//fccid.io".data ++ u)
  · exact hasScheme_https ("//fccid.io".data ++ '/' :: u)

lemma mem_tableDescriptors {d : LinkDescriptor} {t : Table} (hd : d ∈ tableDescriptors t) :
    ∃ hs cs, rowDescriptor hs cs = some d := by
  cases t with
  | nil => exact absurd hd (List.not_mem_nil d)
  | cons hrow rest =>
      revert hd
      show d ∈ (if (headersOf hrow).any (fun s => strContains s submitKw) = true
          then rest.filterMap (rowDescriptor (headersOf hrow)) else []) → _
      split_ifs with hm
      · intro hd
        rcases List.mem_filterMap.mp hd with ⟨cs, _, hcs⟩
        exact ⟨headersOf hrow, cs, hcs⟩
      · intro hd
        exact absurd hd (List.not_mem_nil d)

/-- The filename the table path derives from an anchor (lines 93–96): the
URL path's basename, or the sanitized display text when that is empty. -/
def tableFilenameOf (a : Anchor) : Str :=
  if (basename (urlPath a.href)).isEmpty then sanitizeChars a.text
  else basename (urlPath a.href)

lemma rowDescriptor_fields {hs : List Str} {cs : Row} {d : LinkDescriptor}
    (h : rowDescriptor hs cs = some d) :
    ∃ a : Anchor, d.url = urljoin a.href ∧ d.text = a.text
      ∧ d.filename = tableFilenameOf a := by
  unfold rowDescriptor at h
  split_ifs at h
  cases hl : rowLink cs <;> rw [hl] at h
  · exact absurd h (by simp)
  · rename_i a
    refine ⟨a, ?_⟩
    have he := Option.some.inj h
    rw [← he]
    exact ⟨rfl, rfl, rfl⟩

/-- C8 amended: every descriptor's `target_url` is an absolute
(scheme-carrying) URL, and `suggested_filename` has no generated-name
fallback: it is the URL path's basename — or, in the table path, the
sanitized display text when the basename is empty — and so can be empty
when both are empty. -/
theorem c8_target_url_absolute (doc : HtmlDoc) :
    ∀ d ∈ find_exhibit_links doc,
      hasScheme d.url = true
      ∧ ∃ a : Anchor, d.url = urljoin a.href ∧ d.text = a.text
          ∧ (d.filename = tableFilenameOf a ∨ d.filename = basename (urlPath a.href)) := by
  intro d hd
  revert hd
  show d ∈ (if (doc.tables.flatMap tableDescriptors).isEmpty = true
      then fallbackLinks doc else doc.tables.flatMap tableDescriptors) → _
  split_ifs with hemp
  · intro hd
    rcases List.mem_filterMap.mp hd with ⟨a, _, hfa⟩
    revert hfa
    split_ifs with hpa
    · intro hfa
      have he := Option.some.inj hfa
      rw [← he]
      exact ⟨hasScheme_urljoin a.href, a, rfl, rfl, Or.inr rfl⟩
    · intro hfa
      exact absurd hfa (by simp)
  · intro hd
    rcases List.mem_flatMap.mp hd with ⟨t, _, hdt⟩
    rcases mem_tableDescriptors hdt with ⟨hs, cs, hcs⟩
    rcases rowDescriptor_fields hcs with ⟨a, hurl, htext, hfn⟩
    rw [hurl, htext, hfn]
    exact ⟨hasScheme_urljoin a.href, a, rfl, rfl, Or.inl rfl⟩

/-- A matching table whose only data row's anchor has reference `/` and
empty display text. -/
def docEmptyName : HtmlDoc :=
  ⟨[[hdrSubmit, [⟨[⟨"/".data, []⟩], []⟩, ⟨[], []⟩]]], []⟩

/-- C8 counterexample: the descriptor emitted for that row has an empty
`suggested_filename` — there is no generated-name fallback. -/
theorem c8_counterexample :
    (find_exhibit_links docEmptyName).map (fun d => d.filename) = [[]]
    ∧ find_exhibit_links docEmptyName ≠ [] := by decide

/-- The descriptor the code produces for `/a.pdf` in `docTwoTables`. -/
def descA : LinkDescriptor :=
  ⟨"https://fccid.io/a.pdf".data, "a.pdf".data, "A".data, some ("2020-01-02".data)⟩

/-- C8 witness: the amended theorem applied to a concrete document and
descriptor. -/
theorem c8_target_url_absolute_witness :
    hasScheme descA.url = true
    ∧ ∃ a : Anchor, descA.url = urljoin a.href ∧ descA.text = a.text
        ∧ (descA.filename = tableFilenameOf a ∨ descA.filename = basename (urlPath a.href)) :=
  c8_target_url_absolute docTwoTables descA (by decide)

/-! ## Date claim (C4) -/

/-- Formalisation of the spec's "submission-keyword column": the first
header index whose text contains the keyword and which is a valid index
into the row's cells. -/
def submitIdxAux (headers : List Str) (ncells : Nat) (i : Nat) : Option Nat :=
  match headers with
  | [] => none
  | h :: hs =>
      if strContains h submitKw && decide (i < ncells) then some i
      else submitIdxAux hs ncells (i + 1)

/-- The date value the row loop derives from a cell: the first `YYYY-MM-DD`
match, or the cell's whole stripped text when there is none. -/
def cellDateOf (c : Cell) : Str := (findDateSub c.text).getD c.text

lemma rowDateAux_eq (cs : Row) :
    ∀ (headers : List Str) (i : Nat),
      rowDateAux headers cs i
        = (submitIdxAux headers cs.length i).map (fun j => cellDateOf (cs.getD j cellDefault)) := by
  intro headers
  induction headers with
  | nil => intro i; rfl
  | cons h hs ih =>
      intro i
      show (if strContains h submitKw && decide (i < cs.length) then
            some ((findDateSub (cs.getD i cellDefault).text).getD (cs.getD i cellDefault).text)
          else rowDateAux hs cs (i + 1)) = _
      by_cases hc : (strContains h submitKw && decide (i < cs.length)) = true
      · rw [if_pos hc]
        show _ = (if strContains h submitKw && decide (i < cs.length) then some i
            else submitIdxAux hs cs.length (i + 1)).map (fun j => cellDateOf (cs.getD j cellDefault))
        rw [if_pos hc]
        rfl
      · rw [if_neg hc]
        show _ = (if strContains h submitKw && decide (i < cs.length) then some i
            else submitIdxAux hs cs.length (i + 1)).map (fun j => cellDateOf (cs.getD j cellDefault))
        rw [if_neg hc]
        exact ih (i + 1)

/-- C4 amended: when the submission-keyword column's cell text contains no
`YYYY-MM-DD` substring, the emitted descriptor's `submission_date` is that
cell's whole stripped text — present, not absent. -/
theorem c4_date_keeps_raw_text (hs : List Str) (cs : Row) (i : Nat)
    (h1 : submitIdxAux hs cs.length 0 = some i)
    (h2 : findDateSub (cs.getD i cellDefault).text = none) :
    rowDate hs cs = some ((cs.getD i cellDefault).text)
    ∧ ∀ d, rowDescriptor hs cs = some d → d.date = some ((cs.getD i cellDefault).text) := by
  have hdate : rowDate hs cs = some ((cs.getD i cellDefault).text) := by
    unfold rowDate
    rw [rowDateAux_eq cs hs 0, h1]
    show some (cellDateOf (cs.getD i cellDefault)) = _
    unfold cellDateOf
    rw [h2]
    rfl
  refine ⟨hdate, fun d hd => ?_⟩
  unfold rowDescriptor at hd
  split_ifs at hd
  cases hl : rowLink cs <;> rw [hl] at hd
  · exact absurd hd (by simp)
  · have := Option.some.inj hd
    rw [← this]
    exact hdate

/-- A matching table whose date column holds no `YYYY-MM-DD` text. -/
def docNoDate : HtmlDoc := ⟨[[hdrSubmit, [cellLinkA, ⟨[], "hello".data⟩]]], []⟩

/-- C4 counterexample: the cell text has no date match, yet the emitted
descriptor's `submission_date` is the raw cell text, not absent. -/
theorem c4_counterexample :
    findDateSub ("hello".data) = none
    ∧ (find_exhibit_links docNoDate).map (fun d => d.date) = [some ("hello".data)] := by decide

/-- C4 witness: the amended theorem applied to the no-date row. -/
theorem c4_date_keeps_raw_text_witness :
    rowDate (headersOf hdrSubmit) [cellLinkA, ⟨[], "hello".data⟩] = some ("hello".data) :=
  (c4_date_keeps_raw_text (headersOf hdrSubmit) [cellLinkA, ⟨[], "hello".data⟩] 1
    (by decide) (by decide)).1

/-! ## Button extraction claim (C9) -/

/-- Split on quote characters: `n` quote characters yield `n + 1` segments. -/
def splitQuotes (s : Str) : List Str :=
  match s with
  | [] => [[]]
  | c :: rest =>
      let r := splitQuotes rest
      if isQuoteChar c then [] :: r
      else (c :: r.headD []) :: r.tail

/-- The segments strictly between two consecutive quote characters. -/
def interiorSegments (s : Str) : List Str :=
  ((splitQuotes s).drop 1).dropLast

/-- Formalisation of the claim's wording, for comparison with the code:
the first quoted substring that itself ENDS in the file suffix. -/
def firstQuotedEndingPdf (s : Str) : Option Str :=
  (interiorSegments s).find? (fun seg => lowerEndsWith seg pdfSuffix)

lemma splitQuotes_ne_nil (s : Str) : splitQuotes s ≠ [] := by
  cases s with
  | nil => exact (by decide)
  | cons c rest =>
      show (if isQuoteChar c then [] :: splitQuotes rest
          else (c :: (splitQuotes rest).headD []) :: (splitQuotes rest).tail) ≠ []
      split_ifs <;> exact List.cons_ne_nil _ _

lemma splitQuotes_head (s : Str) :
    (splitQuotes s).headD [] = s.takeWhile (fun d => !(isQuoteChar d)) := by
  induction s with
  | nil => rfl
  | cons c rest ih =>
      show (if isQuoteChar c then [] :: splitQuotes rest
          else (c :: (splitQuotes rest).headD []) :: (splitQuotes rest).tail).headD []
        = (c :: rest).takeWhile (fun d => !(isQuoteChar d))
      rw [List.takeWhile_cons]
      by_cases hq : isQuoteChar c = true
      · rw [if_pos hq]
        show ([] : Str) = _
        simp [hq]
      · have hq2 : isQuoteChar c = false := Bool.eq_false_iff.mpr hq
        rw [if_neg hq]
        show c :: (splitQuotes rest).headD [] = _
        rw [ih]
        simp [hq2]

lemma splitQuotes_length (s : Str) :
    (splitQuotes s).length = s.countP isQuoteChar + 1 := by
  induction s with
  | nil => rfl
  | cons c rest ih =>
      show (if isQuoteChar c then [] :: splitQuotes rest
          else (c :: (splitQuotes rest).headD []) :: (splitQuotes rest).tail).length
        = (c :: rest).countP isQuoteChar + 1
      rw [List.countP_cons]
      by_cases hq : isQuoteChar c = true
      · rw [if_pos hq, if_pos hq]
        simp only [List.length_cons, ih]
      · rw [if_neg hq, if_neg hq]
        cases hr : splitQuotes rest with
        | nil => exact absurd hr (splitQuotes_ne_nil rest)
        | cons x xs =>
            have h2 : (x :: xs).length = rest.countP isQuoteChar + 1 := by rw [← hr]; exact ih
            simp only [List.headD_cons, List.tail_cons, List.length_cons] at h2 ⊢
            omega

lemma takeWhile_all_of_no_quote (rest : Str) (h : rest.countP isQuoteChar = 0) :
    rest.takeWhile (fun d => !(isQuoteChar d)) = rest := by
  rw [List.takeWhile_eq_self_iff]
  intro d hd
  have := List.countP_eq_zero.mp h d hd
  simp only [Bool.not_eq_true] at this
  rw [this]
  rfl

lemma takeWhile_lt_of_quote (rest : Str) (h : rest.countP isQuoteChar ≠ 0) :
    (rest.takeWhile (fun d => !(isQuoteChar d))).length < rest.length := by
  rcases Nat.lt_or_ge (rest.takeWhile (fun d => !(isQuoteChar d))).length rest.length with hlt | hge
  · exact hlt
  · exfalso
    have hle := (List.takeWhile_prefix (fun d => !(isQuoteChar d)) (l := rest)).length_le
    have heq : (rest.takeWhile (fun d => !(isQuoteChar d))).length = rest.length :=
      Nat.le_antisymm hle hge
    have hself : rest.takeWhile (fun d => !(isQuoteChar d)) = rest :=
      (List.takeWhile_prefix _).eq_of_length heq
    apply h
    rw [List.countP_eq_zero]
    intro a ha
    have : (fun d => !(isQuoteChar d)) a = true := List.takeWhile_eq_self_iff.mp hself a ha
    simp only [Bool.not_eq_true'] at this
    simp [this]

/-- The regex search equals: the first interior quoted segment containing
`".pdf"`. -/
lemma quotedPdfSub_eq_interior (s : Str) :
    quotedPdfSub s = (interiorSegments s).find? (fun seg => strContains seg pdfSuffix) := by
  induction s with
  | nil => rfl
  | cons c rest ih =>
      have hlhs : quotedPdfSub (c :: rest)
          = if isQuoteChar c then
              (if decide ((rest.takeWhile (fun d => !(isQuoteChar d))).length < rest.length)
                  && strContains (rest.takeWhile (fun d => !(isQuoteChar d))) pdfSuffix then
                some (rest.takeWhile (fun d => !(isQuoteChar d)))
              else quotedPdfSub rest)
            else quotedPdfSub rest := rfl
      cases hr : splitQuotes rest with
      | nil => exact absurd hr (splitQuotes_ne_nil rest)
      | cons x xs =>
          have hx : x = rest.takeWhile (fun d => !(isQuoteChar d)) := by
            have hh := splitQuotes_head rest
            rw [hr] at hh
            exact hh
          have hsplit : splitQuotes (c :: rest)
              = if isQuoteChar c then [] :: x :: xs else (c :: x) :: xs := by
            show (if isQuoteChar c then [] :: splitQuotes rest
                else (c :: (splitQuotes rest).headD []) :: (splitQuotes rest).tail) = _
            rw [hr]
            rfl
          by_cases hq : isQuoteChar c = true
          · rw [hlhs, if_pos hq]
            have hi : interiorSegments (c :: rest) = (x :: xs).dropLast := by
              unfold interiorSegments
              rw [hsplit, if_pos hq]
              rfl
            rw [hi]
            cases xs with
            | nil =>
                have hc0 : rest.countP isQuoteChar = 0 := by
                  have hl2 := splitQuotes_length rest
                  rw [hr] at hl2
                  simp only [List.length_cons, List.length_nil] at hl2
                  omega
                have hfull : rest.takeWhile (fun d => !(isQuoteChar d)) = rest :=
                  takeWhile_all_of_no_quote rest hc0
                have hnlt : decide ((rest.takeWhile
                    (fun d => !(isQuoteChar d))).length < rest.length) = false := by
                  rw [hfull]
                  simp
                rw [hnlt]
                simp only [Bool.false_and, Bool.false_eq_true, if_false]
                rw [ih]
                have hint : interiorSegments rest = [] := by
                  unfold interiorSegments
                  rw [hr]
                  rfl
                rw [hint]
                rfl
            | cons y ys =>
                have hcq : rest.countP isQuoteChar ≠ 0 := by
                  have hl2 := splitQuotes_length rest
                  rw [hr] at hl2
                  simp only [List.length_cons] at hl2
                  omega
                have hlt : decide ((rest.takeWhile
                    (fun d => !(isQuoteChar d))).length < rest.length) = true :=
                  decide_eq_true (takeWhile_lt_of_quote rest hcq)
                rw [hlt]
                simp only [Bool.true_and]
                rw [List.dropLast_cons_of_ne_nil (List.cons_ne_nil y ys), List.find?_cons]
                cases hcont : strContains (rest.takeWhile (fun d => !(isQuoteChar d))) pdfSuffix
                · rw [hx, hcont]
                  simp only [Bool.false_eq_true, if_false]
                  rw [ih]
                  have hint : interiorSegments rest = (y :: ys).dropLast := by
                    unfold interiorSegments
                    rw [hr]
                    rfl
                  rw [hint]
                · rw [hx, hcont]
                  rfl
          · rw [hlhs, if_neg hq, ih]
            have hint2 : interiorSegments (c :: rest) = interiorSegments rest := by
              unfold interiorSegments
              rw [hsplit, if_neg hq, hr]
              rfl
            rw [hint2]

/-- The `onclick` string `x('a.pdfx')`. -/
def onclickPdfx : Str := ['x', '('] ++ Char.ofNat 39 :: "a.pdfx".data ++ [Char.ofNat 39, ')']

/-- A `type="button"` element with that `onclick`. -/
def buttonPdfx : ButtonEl := ⟨some buttonTy, onclickPdfx⟩

/-- An exhibit page holding only that button. -/
def pagePdfx : ExhibitPage := ⟨[], [buttonPdfx]⟩

/-- C9 counterexample: `x('a.pdfx')` has no quoted substring ending in
`.pdf`, so the claim predicts no candidate; the code still extracts
`a.pdfx` (the quoted substring merely CONTAINS `.pdf`) as a candidate. -/
theorem c9_counterexample :
    firstQuotedEndingPdf onclickPdfx = none
    ∧ buttonCandidates pagePdfx = ["https://fccid.io/a.pdfx".data] := by decide

/-- C9 amended: from a qualifying button's action string the code extracts
the first quoted substring that CONTAINS `".pdf"` (not necessarily ending
in it); an action string with no such quoted substring contributes no
candidate. -/
theorem c9_button_quoted_substring (b : ButtonEl) :
    quotedPdfSub b.onclick
        = (interiorSegments b.onclick).find? (fun seg => strContains seg pdfSuffix)
    ∧ (quotedPdfSub b.onclick = none → buttonCandidates ⟨[], [b]⟩ = [])
    ∧ ∀ u, quotedPdfSub b.onclick = some u → b.typeAttr = some buttonTy →
        (strContains (lowerStr b.onclick) downloadKw
          || strContains (lowerStr b.onclick) pdfSuffix) = true →
        buttonCandidates ⟨[], [b]⟩ = [urljoin u] := by
  refine ⟨quotedPdfSub_eq_interior b.onclick, ?_, ?_⟩
  · intro hnone
    unfold buttonCandidates
    simp [List.filterMap_cons, hnone]
  · intro u hu hty hcond
    have hdisj : strContains (lowerStr b.onclick) downloadKw = true
        ∨ strContains (lowerStr b.onclick) pdfSuffix = true := by simpa using hcond
    unfold buttonCandidates
    rcases hdisj with hc | hc <;> simp [List.filterMap_cons, hty, hc, hu]

/-- C9 witness: the amended theorem applied to the `x('a.pdfx')` button. -/
theorem c9_button_quoted_substring_witness :
    buttonCandidates ⟨[], [buttonPdfx]⟩ = [urljoin ("a.pdfx".data)] :=
  (c9_button_quoted_substring buttonPdfx).2.2 ("a.pdfx".data)
    (by decide) (by decide) (by decide)

/-! ## Concrete witnesses for the resolver and orchestrator claims -/

/-- The `onclick` string `f('/b.pdf')`. -/
def onclickGood : Str := ['f', '('] ++ Char.ofNat 39 :: "/b.pdf".data ++ [Char.ofNat 39, ')']

/-- A `type="button"` element whose action names `/b.pdf`. -/
def buttonGood : ButtonEl := ⟨some buttonTy, onclickGood⟩

/-- An exhibit page with a PDF anchor followed by a qualifying button. -/
def pageAnchorAndButton : ExhibitPage := ⟨[⟨"/x.pdf".data, "Download A".data⟩], [buttonGood]⟩

/-- C2 witness: on a page where both an anchor and a later button qualify,
the resolver returns the anchor's resolved URL. -/
theorem c2_resolver_first_candidate_witness :
    get_pdf_download_url pageAnchorAndButton = some ("https://fccid.io/x.pdf".data) :=
  (c2_resolver_first_candidate pageAnchorAndButton).2.1 ("https://fccid.io/x.pdf".data)
    (by decide)

/-- C5 witness: the exit-code theorem applied to a fetched page with no
links at all. -/
theorem c5_exit_code_witness :
    mainExitCode (some ⟨[], []⟩) (fun _ => true) = 1 :=
  (c5_exit_code (some ⟨[], []⟩) (fun _ => true)).2.2 ⟨[], []⟩ (by decide)

/-- C6 witness: the directory-creation theorem applied to a document that
yields two descriptors. -/
theorem c6_mkdir_gating_witness :
    ∃ rest, runTrace ("BCG-E8726A".data) (some docTwoTables) (fun _ => true)
        = Effect.mkdirE ("BCG-E8726A".data) :: rest
      ∧ ∀ d, Effect.mkdirE d ∉ rest :=
  (c6_mkdir_gating ("BCG-E8726A".data) (some docTwoTables) (fun _ => true)).2
    docTwoTables rfl (by decide)

/-- C10 witness: the warning condition is false for the URL the resolver
returns on the concrete page. -/
theorem c10_warning_unreachable_witness :
    lowerEndsWith ("https://fccid.io/x.pdf".data) pdfSuffix = true
    ∧ ∀ contentType, warnCondition contentType ("https://fccid.io/x.pdf".data) = false :=
  c10_warning_unreachable pageAnchorAndButton ("https://fccid.io/x.pdf".data) (by decide)

end Fccid
